import Mathlib

/-!
Verification development for the glance registry persistence layer
(`glance/registry/db/sqlalchemy/models.py`).

The Python module is shallowly embedded: entities are records carrying the
`ModelBase` columns plus a per-type payload, a session is the list of flushed
rows together with the autoincrement counter, timestamps are naturals fed in
explicitly where the code calls `datetime.datetime.utcnow()`, and fallible
operations return `Except`.  Strings are lists of characters so that Python's
`str.rpartition` and `int()` can be modelled directly.
-/

/-- Character of a decimal digit value (codepoint 48 + d), as produced by
Python's decimal formatting of integers. -/
def digitChar (d : Nat) : Char := Char.ofNat (48 + d)

/-- Decimal-digit test on characters, as accepted by Python `int()`. -/
def isDigitChar (c : Char) : Bool := 48 ≤ c.toNat && c.toNat ≤ 57

/-- Numeric value of a decimal digit character. -/
def digitVal (c : Char) : Nat := c.toNat - 48

/-- Whitespace characters stripped by Python `int()` around the number. -/
def isSpaceChar (c : Char) : Bool :=
  c == ' ' || c == '\t' || c == '\n' || c == '\x0b' || c == '\x0c' || c == '\r'

/-- Fuel-driven loop producing the big-endian decimal digit characters of `n`
in front of `acc`.  The fuel only serves structural termination; `natDigits`
always supplies enough of it. -/
def natDigitsGo (fuel : Nat) (n : Nat) (acc : List Char) : List Char :=
  match fuel with
  | 0 => acc
  | fuel' + 1 =>
    if n < 10 then digitChar n :: acc
    else natDigitsGo fuel' (n / 10) (digitChar (n % 10) :: acc)

/-- Decimal digit string of a natural number: Python `str` of a nonnegative
integer. -/
def natDigits (n : Nat) : List Char := natDigitsGo (n + 1) n []

/-- Python `str()` of an integer. -/
def pyStrInt (n : Int) : List Char :=
  if n < 0 then '-' :: natDigits (-n).toNat else natDigits n.toNat

/-- Python `"%s"` interpolation of a possibly-unassigned integer column:
`None` prints as the four characters `None`. -/
def pyStrOptInt : Option Int → List Char
  | none => "None".toList
  | some n => pyStrInt n

/-- Digit-accumulating core of Python `int()` on a string: consumes decimal
digits, failing on any other character. -/
def parseDigitsAux (a : Nat) : List Char → Option Nat
  | [] => some a
  | c :: cs => if isDigitChar c then parseDigitsAux (a * 10 + digitVal c) cs else none

/-- Parse a nonempty run of decimal digits; empty input is a `ValueError` in
Python `int()`. -/
def parseDigits (l : List Char) : Option Nat :=
  match l with
  | [] => none
  | c :: cs => parseDigitsAux 0 (c :: cs)

/-- Strip the leading and trailing whitespace that Python `int()` ignores. -/
def stripSpaces (l : List Char) : List Char :=
  ((l.dropWhile isSpaceChar).reverse.dropWhile isSpaceChar).reverse

/-- Python `int(s)` on a string: optional surrounding whitespace, an optional
sign, then a nonempty run of decimal digits; anything else raises
`ValueError`, modelled as `none`. -/
def pyInt (s : List Char) : Option Int :=
  match stripSpaces s with
  | [] => none
  | c :: rest =>
    if c = '-' then (parseDigits rest).map (fun m => -(m : Int))
    else if c = '+' then (parseDigits rest).map (fun m => ((m : Nat) : Int))
    else (parseDigits (c :: rest)).map (fun m => ((m : Nat) : Int))

/-- Suffix after the last occurrence of `sep`: the third component of Python's
`s.rpartition(sep)`.  When `sep` does not occur, `rpartition` returns
`('', '', s)`, whose third component is all of `s`, as here. -/
def rpartitionSuffix (sep : Char) (s : List Char) : List Char :=
  (s.reverse.takeWhile (fun c => c != sep)).reverse

theorem natDigitsGo_append (fuel : Nat) :
    ∀ (n : Nat) (acc : List Char),
      natDigitsGo fuel n acc = natDigitsGo fuel n [] ++ acc := by
  induction fuel with
  | zero => intro n acc; rfl
  | succ fuel ih =>
    intro n acc
    by_cases h : n < 10
    · simp [natDigitsGo, h]
    · simp only [natDigitsGo, if_neg h]
      rw [ih (n / 10) (digitChar (n % 10) :: acc), ih (n / 10) [digitChar (n % 10)]]
      simp

theorem natDigitsGo_fuel (n : Nat) :
    ∀ f g : Nat, n < f → n < g → natDigitsGo f n [] = natDigitsGo g n [] := by
  induction n using Nat.strong_induction_on with
  | _ n ih =>
    intro f g hf hg
    match f, g with
    | f' + 1, g' + 1 =>
      by_cases h : n < 10
      · simp [natDigitsGo, h]
      · simp only [natDigitsGo, if_neg h]
        rw [natDigitsGo_append f', natDigitsGo_append g']
        have hlt : n / 10 < n := Nat.div_lt_self (by omega) (by omega)
        rw [ih (n / 10) hlt f' g' (by omega) (by omega)]

theorem natDigits_def (n : Nat) :
    natDigits n =
      if n < 10 then [digitChar n]
      else natDigits (n / 10) ++ [digitChar (n % 10)] := by
  by_cases h : n < 10
  · rw [if_pos h]
    simp [natDigits, natDigitsGo, h]
  · rw [if_neg h]
    have hlt : n / 10 < n := Nat.div_lt_self (by omega) (by omega)
    have step : natDigitsGo (n + 1) n [] = natDigitsGo n (n / 10) [digitChar (n % 10)] := by
      simp [natDigitsGo, if_neg h]
    show natDigitsGo (n + 1) n [] = natDigits (n / 10) ++ [digitChar (n % 10)]
    rw [step, natDigitsGo_append n, natDigitsGo_fuel (n / 10) n (n / 10 + 1) hlt (by omega)]
    rfl

theorem digitChar_facts (d : Nat) (hd : d < 10) :
    isDigitChar (digitChar d) = true ∧ digitVal (digitChar d) = d ∧
      digitChar d ≠ '-' ∧ digitChar d ≠ '+' ∧ isSpaceChar (digitChar d) = false := by
  interval_cases d <;> exact ⟨by decide, by decide, by decide, by decide, by decide⟩

theorem natDigits_all_digits (n : Nat) :
    ∀ c ∈ natDigits n, isDigitChar c = true := by
  induction n using Nat.strong_induction_on with
  | _ n ih =>
    intro c hc
    rw [natDigits_def] at hc
    by_cases h : n < 10
    · rw [if_pos h] at hc
      simp only [List.mem_singleton] at hc
      exact hc ▸ (digitChar_facts n h).1
    · rw [if_neg h] at hc
      rcases List.mem_append.mp hc with h1 | h2
      · exact ih (n / 10) (Nat.div_lt_self (by omega) (by omega)) c h1
      · simp only [List.mem_singleton] at h2
        exact h2 ▸ (digitChar_facts (n % 10) (Nat.mod_lt _ (by omega))).1

theorem natDigits_head (n : Nat) :
    ∃ c cs, natDigits n = c :: cs ∧ isDigitChar c = true := by
  induction n using Nat.strong_induction_on with
  | _ n ih =>
    rw [natDigits_def]
    by_cases h : n < 10
    · exact ⟨digitChar n, [], by rw [if_pos h], (digitChar_facts n h).1⟩
    · obtain ⟨c, cs, hcs, hdig⟩ := ih (n / 10) (Nat.div_lt_self (by omega) (by omega))
      exact ⟨c, cs ++ [digitChar (n % 10)], by rw [if_neg h, hcs]; rfl, hdig⟩

theorem parseDigitsAux_append (xs : List Char) :
    ∀ (a : Nat) (ys : List Char),
      parseDigitsAux a (xs ++ ys) =
        match parseDigitsAux a xs with
        | some b => parseDigitsAux b ys
        | none => none := by
  induction xs with
  | nil => intro a ys; rfl
  | cons c cs ih =>
    intro a ys
    by_cases h : isDigitChar c
    · simp only [List.cons_append, parseDigitsAux, if_pos h]
      exact ih _ ys
    · simp only [List.cons_append, parseDigitsAux, if_neg h]

theorem parseDigitsAux_natDigits (n : Nat) :
    ∀ a : Nat,
      parseDigitsAux a (natDigits n) = some (a * 10 ^ (natDigits n).length + n) := by
  induction n using Nat.strong_induction_on with
  | _ n ih =>
    intro a
    by_cases h : n < 10
    · rw [natDigits_def, if_pos h]
      obtain ⟨hdig, hval, -, -, -⟩ := digitChar_facts n h
      simp [parseDigitsAux, hdig, hval]
    · have hlt : n / 10 < n := Nat.div_lt_self (by omega) (by omega)
      have hD : natDigits n = natDigits (n / 10) ++ [digitChar (n % 10)] := by
        rw [natDigits_def]
        exact if_neg h
      rw [hD, parseDigitsAux_append, ih (n / 10) hlt a]
      obtain ⟨hdig, hval, -, -, -⟩ := digitChar_facts (n % 10) (Nat.mod_lt _ (by omega))
      simp only [parseDigitsAux, if_pos hdig, hval]
      congr 1
      simp only [List.length_append, List.length_singleton]
      calc (a * 10 ^ (natDigits (n / 10)).length + n / 10) * 10 + n % 10
          = a * (10 ^ (natDigits (n / 10)).length * 10) + (10 * (n / 10) + n % 10) := by
            ring
        _ = a * 10 ^ ((natDigits (n / 10)).length + 1) + n := by
            rw [Nat.div_add_mod, Nat.pow_succ]

theorem parseDigits_natDigits (n : Nat) : parseDigits (natDigits n) = some n := by
  obtain ⟨c, cs, hcs, -⟩ := natDigits_head n
  have := parseDigitsAux_natDigits n 0
  rw [hcs] at this ⊢
  simpa [parseDigits] using this

theorem isDigitChar_not_space {c : Char} (h : isDigitChar c = true) :
    isSpaceChar c = false := by
  simp only [isDigitChar, Bool.and_eq_true, decide_eq_true_eq] at h
  simp only [isSpaceChar, Bool.or_eq_false_iff, beq_eq_false_iff_ne]
  refine ⟨⟨⟨⟨⟨?_, ?_⟩, ?_⟩, ?_⟩, ?_⟩, ?_⟩ <;>
    (intro hc; subst hc; revert h; decide)

theorem isDigitChar_ne_dash {c : Char} (h : isDigitChar c = true) :
    c ≠ '-' ∧ c ≠ '+' := by
  constructor <;> (intro hc; subst hc; revert h; decide)

theorem dropWhile_eq_self_of_none {p : Char → Bool} :
    ∀ l : List Char, (∀ c ∈ l, p c = false) → l.dropWhile p = l := by
  intro l h
  match l with
  | [] => rfl
  | c :: cs =>
    have hc : p c = false := h c (List.mem_cons_self c cs)
    simp [List.dropWhile, hc]

theorem stripSpaces_eq_self {l : List Char}
    (h : ∀ c ∈ l, isSpaceChar c = false) : stripSpaces l = l := by
  unfold stripSpaces
  rw [dropWhile_eq_self_of_none l h]
  rw [dropWhile_eq_self_of_none l.reverse (fun c hc => h c (List.mem_reverse.mp hc))]
  exact List.reverse_reverse l

theorem pyInt_natDigits (n : Nat) : pyInt (natDigits n) = some (n : Int) := by
  have hstrip : stripSpaces (natDigits n) = natDigits n :=
    stripSpaces_eq_self (fun c hc => isDigitChar_not_space (natDigits_all_digits n c hc))
  obtain ⟨c, cs, hcs, hdig⟩ := natDigits_head n
  obtain ⟨hdash, hplus⟩ := isDigitChar_ne_dash hdig
  have hparse := parseDigits_natDigits n
  rw [hcs] at hparse
  have hstrip2 : stripSpaces (c :: cs) = c :: cs := by rw [← hcs]; exact hstrip
  simp only [pyInt, hcs, hstrip2]
  simp [hdash, hplus, hparse]

theorem takeWhile_append_stop {p : Char → Bool} (a : Char) (ha : p a = false) :
    ∀ (xs ys : List Char), (∀ c ∈ xs, p c = true) →
      (xs ++ a :: ys).takeWhile p = xs := by
  intro xs ys h
  induction xs with
  | nil => simp [List.takeWhile, ha]
  | cons c cs ih =>
    have hc : p c = true := h c (List.mem_cons_self c cs)
    simp only [List.cons_append, List.takeWhile, hc, List.append_eq]
    rw [ih (fun d hd => h d (List.mem_cons_of_mem c hd))]

theorem rpartitionSuffix_append (pfx ds : List Char)
    (h : ∀ c ∈ ds, c ≠ '-') :
    rpartitionSuffix '-' (pfx ++ '-' :: ds) = ds := by
  unfold rpartitionSuffix
  have hrev : (pfx ++ '-' :: ds).reverse = ds.reverse ++ '-' :: pfx.reverse := by
    simp
  rw [hrev, takeWhile_append_stop '-' (by decide) ds.reverse pfx.reverse
    (fun c hc => by
      have := h c (List.mem_reverse.mp hc)
      simpa [bne_iff_ne] using this)]
  exact List.reverse_reverse ds

/-- Single quote character (codepoint 39), used by the validation messages. -/
def quoteChar : Char := Char.ofNat 39

/-- Errors surfaced by the persistence layer: `exception.NotFound` and
`exception.Invalid` raised by the glance code itself, the uncaught
`sqlalchemy.orm.exc.MultipleResultsFound` escaping `Query.one()`, the store's
integrity errors, and Python's `ValueError` from `int()`. -/
inductive Err where
  | notFound (msg : List Char)
  | invalid (msg : List Char)
  | multipleResultsFound
  | uniqueViolation
  | notNullViolation
  | valueError
deriving DecidableEq

/-- Python value held by a mapped column or passed to an attribute
assignment. -/
inductive PyVal where
  | vnone
  | vbool (b : Bool)
  | vint (n : Int)
  | vstr (s : List Char)
deriving DecidableEq

/-- Python `str()` / `"%s"` formatting of a value. -/
def pyStrVal : PyVal → List Char
  | .vnone => "None".toList
  | .vbool true => "True".toList
  | .vbool false => "False".toList
  | .vint n => pyStrInt n
  | .vstr s => s

/-- Columns `ModelBase` gives every mapped entity, plus the per-type payload
`fields`.  `id` is `none` until the store assigns it at the first flush.
`created_at` has column default `utcnow` (applied at INSERT), `updated_at`
has only an `onupdate` hook (so it is null until the first UPDATE), and
`deleted` defaults to false. -/
structure Entity (α : Type) where
  id : Option Int := none
  created_at : Option Nat := none
  updated_at : Option Nat := none
  deleted_at : Option Nat := none
  deleted : Bool := false
  fields : α
deriving DecidableEq

/-- Unit of work from `get_session()`: the flushed rows of one mapped table
plus the autoincrement counter for primary keys. -/
structure Session (α : Type) where
  rows : List (Entity α) := []
  nextId : Int := 1
deriving DecidableEq

namespace ModelBase

/-- Query helper `ModelBase.all`: `session.query(cls).filter_by(deleted=deleted).all()`.
The Python default for the `deleted` argument is `False`. -/
def all {α : Type} (s : Session α) (deleted : Bool) : List (Entity α) :=
  s.rows.filter (fun r => r.deleted == deleted)

/-- Query helper `ModelBase.count`: same filter as `all`, returning
`query.count()`.  The Python default for `deleted` is `False`. -/
def count {α : Type} (s : Session α) (deleted : Bool) : Nat :=
  (s.rows.filter (fun r => r.deleted == deleted)).length

/-- Query helper `ModelBase.find`: `filter_by(id=obj_id).filter_by(deleted=deleted).one()`.
`Query.one()` raises `NoResultFound` on zero rows, which the code catches and
re-raises as `exception.NotFound("No model for id %s" % obj_id)`; on more than
one row it raises `MultipleResultsFound`, which the code does not catch. -/
def find {α : Type} (s : Session α) (obj_id : Int) (deleted : Bool) :
    Except Err (Entity α) :=
  match s.rows.filter (fun r => r.id == some obj_id && r.deleted == deleted) with
  | [] => .error (.notFound ("No model for id ".toList ++ pyStrInt obj_id))
  | [r] => .ok r
  | _ => .error .multipleResultsFound

/-- Query helper `ModelBase.find_by_str`:
`int_id = int(str_id.rpartition('-')[2])`, then `cls.find(int_id, ...)`.
A suffix that `int()` rejects raises `ValueError`. -/
def find_by_str {α : Type} (s : Session α) (str_id : List Char) (deleted : Bool) :
    Except Err (Entity α) :=
  match pyInt (rpartitionSuffix '-' str_id) with
  | some n => find s n deleted
  | none => .error .valueError

/-- Mutation helper `ModelBase.save`: `session.add(self)` followed by
`session.flush()`.  `now` is the flush-time `utcnow`.  A new entity is
INSERTed: the store assigns `nextId` as primary key and the `created_at`
column default fires when the attribute is unset.  A persistent entity is
UPDATEd in place and the `updated_at` `onupdate` hook stamps the flush time
(the model flushes a persistent entity as dirty; glance callers only save
after mutating). -/
def save {α : Type} (now : Nat) (e : Entity α) (s : Session α) :
    Entity α × Session α :=
  match e.id with
  | none =>
    let e1 : Entity α :=
      { e with id := some s.nextId, created_at := some (e.created_at.getD now) }
    (e1, { rows := s.rows ++ [e1], nextId := s.nextId + 1 })
  | some i =>
    let e1 : Entity α := { e with updated_at := some now }
    (e1, { s with rows := s.rows.map (fun r => if r.id == some i then e1 else r) })

/-- Mutation helper `ModelBase.delete`: `self.deleted = True`,
`self.deleted_at = datetime.datetime.utcnow()`, then `self.save(session)`.
`now` stands for the `utcnow` sampled during the call. -/
def delete {α : Type} (now : Nat) (e : Entity α) (s : Session α) :
    Entity α × Session α :=
  save now { e with deleted := true, deleted_at := some now } s

end ModelBase

/-- Mapped columns of the `images` table beyond the `ModelBase` ones, plus
`extra` for attributes set under unmapped names (Python `setattr` accepts any
name; unmapped ones land in the instance dict and are never persisted).
The `is_public` column default `False` is applied eagerly here; no claim
observes the attribute between construction and flush. -/
structure ImageFields where
  name : PyVal := .vnone
  type : PyVal := .vnone
  size : PyVal := .vnone
  status : PyVal := .vnone
  is_public : PyVal := .vbool false
  location : PyVal := .vnone
  extra : List (List Char × PyVal) := []
deriving DecidableEq

/-- An image row: `class Image(BASE, ModelBase)`. -/
abbrev Image := Entity ImageFields

/-- Mapped columns of the `image_properties` table beyond the `ModelBase`
ones. -/
structure ImagePropertyFields where
  image_id : PyVal := .vnone
  key : PyVal := .vnone
  value : PyVal := .vnone
deriving DecidableEq

/-- An image property row: `class ImageProperty(BASE, ModelBase)`. -/
abbrev ImageProperty := Entity ImagePropertyFields

/-- Prefix `Image.__prefix__ = 'img'`. -/
def imgPfx : List Char := "img".toList

/-- Prefix `ImageProperty.__prefix__ = 'img-prop'`. -/
def imgPropPfx : List Char := "img-prop".toList

/-- Derived identifier `ModelBase.str_id`: `"%s-%s" % (self.__prefix__, self.id)`.
It is computed on access and never stored. -/
def Entity.str_id {α : Type} (pfx : List Char) (e : Entity α) : List Char :=
  pfx ++ '-' :: pyStrOptInt e.id

namespace Image

/-- The tuple `('machine', 'kernel', 'ramdisk', 'raw')` that
`Image.validate_type` tests membership in. -/
def typeVals : List PyVal :=
  [.vstr "machine".toList, .vstr "kernel".toList, .vstr "ramdisk".toList,
   .vstr "raw".toList]

/-- The tuple `('available', 'pending', 'disabled')` that
`Image.validate_status` tests membership in. -/
def statusVals : List PyVal :=
  [.vstr "available".toList, .vstr "pending".toList, .vstr "disabled".toList]

/-- Validator `Image.validate_type` (`@validates('type')`): raises
`exception.Invalid("Invalid image type '%s' for image." % type)` unless the
value is one of the four allowed strings, else returns the value for the
attribute to take. -/
def validate_type (v : PyVal) : Except Err PyVal :=
  if v ∈ typeVals then .ok v
  else .error (.invalid ("Invalid image type ".toList ++ quoteChar ::
    (pyStrVal v ++ quoteChar :: " for image.".toList)))

/-- Validator `Image.validate_status` (`@validates('status')`): raises
`exception.Invalid("Invalid status '%s' for image." % status)` unless the
value is one of the three allowed strings. -/
def validate_status (v : PyVal) : Except Err PyVal :=
  if v ∈ statusVals then .ok v
  else .error (.invalid ("Invalid status ".toList ++ quoteChar ::
    (pyStrVal v ++ quoteChar :: " for image.".toList)))

/-- Python `setattr(img, key, v)` on an `Image`.  SQLAlchemy runs the
`@validates` hook for `type` and `status` before the attribute is set; a
validator that raises leaves the attribute untouched.  The other mapped
`images` columns are set directly, and an unmapped name becomes a plain
instance attribute (recorded in `extra`).  Scope note: in Python, `setattr`
with a `ModelBase` column name (`id`, `created_at`, `updated_at`,
`deleted_at`, `deleted`) assigns that mapped column too; this embedding
leaves those assignments out of scope — they carry datetime/identity values
with no `PyVal` counterpart, and no modelled operation performs them (the
base columns change only through `save` and `delete`) — so such a key also
lands in `extra` here and does not stand for a faithful base-column update. -/
def setAttr (img : Image) (key : List Char) (v : PyVal) : Except Err Image :=
  if key = "type".toList then
    match validate_type v with
    | .ok t => .ok { img with fields := { img.fields with type := t } }
    | .error e => .error e
  else if key = "status".toList then
    match validate_status v with
    | .ok t => .ok { img with fields := { img.fields with status := t } }
    | .error e => .error e
  else if key = "name".toList then
    .ok { img with fields := { img.fields with name := v } }
  else if key = "size".toList then
    .ok { img with fields := { img.fields with size := v } }
  else if key = "is_public".toList then
    .ok { img with fields := { img.fields with is_public := v } }
  else if key = "location".toList then
    .ok { img with fields := { img.fields with location := v } }
  else
    .ok { img with fields := { img.fields with extra := (key, v) :: img.fields.extra } }

/-- Dict-style assignment `ModelBase.__setitem__`: `setattr(self, key, value)`. -/
def setItem (img : Image) (key : List Char) (v : PyVal) : Except Err Image :=
  setAttr img key v

/-- Bulk helper `ModelBase.update`: `for k, v in values.iteritems(): self[k] = v`.
A raising assignment aborts the loop, leaving the assignments already made in
place, so the partially updated entity is returned with the error. -/
def update (img : Image) : List (List Char × PyVal) → Image × Option Err
  | [] => (img, none)
  | (k, v) :: rest =>
    match setItem img k v with
    | .ok img' => update img' rest
    | .error e => (img, some e)

/-- Declarative construction `Image(**kwargs)`: the declarative base
constructor does `setattr(self, k, v)` for every keyword argument on a fresh
instance, so each assignment runs the validators. -/
def new (values : List (List Char × PyVal)) : Image × Option Err :=
  update { fields := {} } values

end Image

namespace ImageProperty

/-- Modelled from the spec: the store-side enforcement of
`UniqueConstraint('image_id', 'key')` is not part of the repository (only the
declaration on `ImageProperty.__table_args__` is); per SQL semantics two rows
collide when both columns are equal and non-NULL. -/
def conflictb (a b : ImagePropertyFields) : Bool :=
  a.image_id == b.image_id && a.key == b.key &&
    !(a.key == PyVal.vnone) && !(a.image_id == PyVal.vnone)

/-- Modelled from the spec: flushing an `ImageProperty` through
`ModelBase.save`.  The store (absent from the repository) enforces the
declared `nullable=False` on `image_id` and the `UniqueConstraint('image_id',
'key')`, surfacing an integrity error instead of writing; otherwise the flush
proceeds exactly as `ModelBase.save`.  An INSERT is checked against every
existing row, an UPDATE against every other row. -/
def save (now : Nat) (p : ImageProperty) (s : Session ImagePropertyFields) :
    Except Err (ImageProperty × Session ImagePropertyFields) :=
  if p.fields.image_id == PyVal.vnone then .error .notNullViolation
  else
    match p.id with
    | none =>
      if s.rows.any (fun r => conflictb r.fields p.fields) then
        .error .uniqueViolation
      else .ok (ModelBase.save now p s)
    | some i =>
      if s.rows.any (fun r => !(r.id == some i) && conflictb r.fields p.fields) then
        .error .uniqueViolation
      else .ok (ModelBase.save now p s)

end ImageProperty

/-- Fixture: a live (non-deleted) persisted row over a trivial payload. -/
def entLiveW : Entity Unit := { id := some 1, fields := () }

/-- Fixture: a soft-deleted persisted row over a trivial payload. -/
def entDelW : Entity Unit := { id := some 2, deleted := true, deleted_at := some 3, fields := () }

/-- Fixture: a session holding one live and one soft-deleted row. -/
def sessW : Session Unit := { rows := [entLiveW, entDelW], nextId := 3 }

/-- Claim C1: for every concrete entity type, `all(deleted)` and
`count(deleted)` return exactly the entities (respectively their cardinality)
whose `deleted` flag equals the argument; with the Python default
`deleted=False`, soft-deleted entities are never included in the result. -/
theorem c1_all_count_filter {α : Type} (s : Session α) (d : Bool) :
    (∀ r : Entity α, r ∈ ModelBase.all s d ↔ r ∈ s.rows ∧ r.deleted = d)
    ∧ ModelBase.count s d = (ModelBase.all s d).length
    ∧ ∀ r : Entity α, r ∈ ModelBase.all s false → r.deleted ≠ true := by
  refine ⟨?_, rfl, ?_⟩
  · intro r
    simp [ModelBase.all, List.mem_filter]
  · intro r hr
    rw [ModelBase.all, List.mem_filter] at hr
    simp only [beq_iff_eq] at hr
    simp [hr.2]

/-- Witness for C1 on a concrete session: the live row is produced by
`all(deleted=False)`. -/
theorem c1_witness : entLiveW ∈ ModelBase.all sessW false :=
  ((c1_all_count_filter sessW false).1 entLiveW).mpr ⟨by simp [sessW], rfl⟩

theorem save_persistent {α : Type} (now : Nat) (e : Entity α) (s : Session α) (i : Int)
    (hid : e.id = some i) :
    ModelBase.save now e s =
      ({ e with updated_at := some now },
       { s with rows := s.rows.map (fun r =>
          if r.id == some i then { e with updated_at := some now } else r) }) := by
  unfold ModelBase.save
  rw [hid]

theorem save_fresh {α : Type} (now : Nat) (e : Entity α) (s : Session α)
    (hid : e.id = none) :
    ModelBase.save now e s =
      ({ e with id := some s.nextId, created_at := some (e.created_at.getD now) },
       { rows := s.rows ++
          [{ e with id := some s.nextId, created_at := some (e.created_at.getD now) }],
         nextId := s.nextId + 1 }) := by
  unfold ModelBase.save
  rw [hid]

/-- Claim C2: `delete()` sets `deleted` to true, sets `deleted_at` to the
current time, and then performs `save()`; it never physically removes the row
(the row count is unchanged and a row with the entity's id is still present),
and afterwards the entity is excluded from `all()` and `count()` under the
default filter (`count` being the length of `all`'s result, the exclusion
carries over to it). -/
theorem c2_delete_soft {α : Type} (now : Nat) (e : Entity α) (s : Session α) (i : Int)
    (hid : e.id = some i) (hrow : ∃ r ∈ s.rows, r.id = some i) :
    ModelBase.delete now e s
        = ModelBase.save now { e with deleted := true, deleted_at := some now } s
    ∧ (ModelBase.delete now e s).1.deleted = true
    ∧ (ModelBase.delete now e s).1.deleted_at = some now
    ∧ (ModelBase.delete now e s).2.rows.length = s.rows.length
    ∧ (∃ r ∈ (ModelBase.delete now e s).2.rows, r.id = some i)
    ∧ (∀ r ∈ ModelBase.all (ModelBase.delete now e s).2 false, r.id ≠ some i)
    ∧ ModelBase.count (ModelBase.delete now e s).2 false
        = (ModelBase.all (ModelBase.delete now e s).2 false).length := by
  have heq : ModelBase.delete now e s =
      ({ e with deleted := true, deleted_at := some now, updated_at := some now },
       { s with rows := s.rows.map (fun r =>
          if r.id == some i then
            { e with deleted := true, deleted_at := some now, updated_at := some now }
          else r) }) := by
    unfold ModelBase.delete
    exact save_persistent now _ s i hid
  refine ⟨rfl, ?_, ?_, ?_, ?_, ?_, rfl⟩
  · rw [heq]
  · rw [heq]
  · rw [heq]
    exact s.rows.length_map _
  · obtain ⟨r, hr, hri⟩ := hrow
    rw [heq]
    exact ⟨{ e with deleted := true, deleted_at := some now, updated_at := some now },
      List.mem_map.mpr ⟨r, hr, by simp [hri]⟩, hid⟩
  · intro r hr
    rw [ModelBase.all, List.mem_filter, heq] at hr
    obtain ⟨hmem, hdel⟩ := hr
    obtain ⟨q, hq, hfq⟩ := List.mem_map.mp hmem
    by_cases hqi : q.id = some i
    · rw [if_pos (by simp [hqi])] at hfq
      rw [← hfq] at hdel
      simp at hdel
    · rw [if_neg (by simp [hqi])] at hfq
      rw [← hfq]
      exact hqi

/-- Witness for C2 on a concrete session: after deleting the live row its
`deleted_at` is stamped with the deletion time. -/
theorem c2_witness : (ModelBase.delete 9 entLiveW sessW).1.deleted_at = some 9 :=
  (c2_delete_soft 9 entLiveW sessW 1 rfl ⟨entLiveW, by simp [sessW], rfl⟩).2.2.1

/-- Fixture: a persisted row for exercising repeated deletion. -/
def ent3 : Entity Unit := { id := some 1, fields := () }

/-- Fixture: a session holding only `ent3`. -/
def sess3 : Session Unit := { rows := [ent3], nextId := 2 }

/-- Counterexample to claim C3: calling `delete()` a second time at a later
clock reading overwrites `deleted_at` — the code assigns
`self.deleted_at = datetime.datetime.utcnow()` unconditionally on every
`delete()` call, so the timestamp is not set exactly once. -/
theorem c3_counterexample :
    (ModelBase.delete 1 ent3 sess3).1.deleted_at = some 1
    ∧ (ModelBase.delete 2 (ModelBase.delete 1 ent3 sess3).1
        (ModelBase.delete 1 ent3 sess3).2).1.deleted_at = some 2
    ∧ ¬ ((ModelBase.delete 2 (ModelBase.delete 1 ent3 sess3).1
        (ModelBase.delete 1 ent3 sess3).2).1.deleted_at
          = (ModelBase.delete 1 ent3 sess3).1.deleted_at) := by
  decide

/-- Claim C3 (amended): `deleted_at` is null on a fresh entity until it is
soft-deleted; each `delete()` call sets `deleted_at` to the current time, so
calling `delete()` more than once moves `deleted_at` to the latest deletion
time instead of leaving the first value in place. -/
theorem c3_deleted_at_amended {α : Type} (now now' : Nat) (e : Entity α)
    (s : Session α) :
    (∀ f : α, ({ fields := f } : Entity α).deleted_at = none)
    ∧ (ModelBase.delete now e s).1.deleted_at = some now
    ∧ (ModelBase.delete now'
        (ModelBase.delete now e s).1
        (ModelBase.delete now e s).2).1.deleted_at = some now' := by
  have hdel : ∀ (t : Nat) (e' : Entity α) (s' : Session α),
      (ModelBase.delete t e' s').1.deleted_at = some t := by
    intro t e' s'
    have hsave : ∀ e2 : Entity α, (ModelBase.save t e2 s').1.deleted_at = e2.deleted_at := by
      intro e2
      cases h : e2.id with
      | none => rw [save_fresh t e2 s' h]
      | some i => rw [save_persistent t e2 s' i h]
    exact hsave { e' with deleted := true, deleted_at := some t }
  exact ⟨fun f => rfl, hdel now e s, hdel now' _ _⟩

/-- Claim C4: under the store's primary-key uniqueness guarantee, `find`
returns exactly the row whose `id` and `deleted` flag match, and raises
`NotFound` (carrying `"No model for id %s"`) exactly when zero rows match. -/
theorem c4_find_spec {α : Type} (s : Session α) (i : Int) (d : Bool)
    (hp : s.rows.Pairwise (fun a b => a.id ≠ b.id)) :
    (∀ r : Entity α, ModelBase.find s i d = .ok r ↔
        r ∈ s.rows ∧ r.id = some i ∧ r.deleted = d)
    ∧ (ModelBase.find s i d
          = .error (.notFound ("No model for id ".toList ++ pyStrInt i))
        ↔ ¬ ∃ r ∈ s.rows, r.id = some i ∧ r.deleted = d) := by
  have hmemf : ∀ r : Entity α,
      r ∈ s.rows.filter (fun r => r.id == some i && r.deleted == d) ↔
        r ∈ s.rows ∧ r.id = some i ∧ r.deleted = d := by
    intro r
    rw [List.mem_filter]
    simp [Bool.and_eq_true, beq_iff_eq, and_assoc]
  have hpf : (s.rows.filter (fun r => r.id == some i && r.deleted == d)).Pairwise
      (fun a b : Entity α => a.id ≠ b.id) :=
    List.Pairwise.sublist (List.filter_sublist _) hp
  cases hF : s.rows.filter (fun r : Entity α => r.id == some i && r.deleted == d) with
  | nil =>
    have hfind : ModelBase.find s i d
        = .error (.notFound ("No model for id ".toList ++ pyStrInt i)) := by
      unfold ModelBase.find
      rw [hF]
    constructor
    · intro r'
      rw [hfind]
      constructor
      · intro h
        exact Except.noConfusion h
      · rintro ⟨hr, hri, hrd⟩
        have hmem := (hmemf r').mpr ⟨hr, hri, hrd⟩
        rw [hF] at hmem
        exact absurd hmem (List.not_mem_nil r')
    · rw [hfind]
      refine iff_of_true rfl ?_
      rintro ⟨r, hr, hri, hrd⟩
      have hmem := (hmemf r).mpr ⟨hr, hri, hrd⟩
      rw [hF] at hmem
      exact absurd hmem (List.not_mem_nil r)
  | cons r1 rest =>
    cases rest with
    | nil =>
      have hfind : ModelBase.find s i d = .ok r1 := by
        unfold ModelBase.find
        rw [hF]
      have hr1 : r1 ∈ s.rows ∧ r1.id = some i ∧ r1.deleted = d :=
        (hmemf r1).mp (by rw [hF]; exact List.mem_singleton_self r1)
      constructor
      · intro r'
        rw [hfind]
        constructor
        · intro h
          injection h with h
          subst h
          exact hr1
        · rintro ⟨hr, hri, hrd⟩
          have hmem := (hmemf r').mpr ⟨hr, hri, hrd⟩
          rw [hF] at hmem
          rw [List.mem_singleton.mp hmem]
      · rw [hfind]
        refine iff_of_false (by simp) ?_
        intro hno
        exact hno ⟨r1, hr1.1, hr1.2.1, hr1.2.2⟩
    | cons r2 rest2 =>
      exfalso
      have h1 : r1 ∈ s.rows.filter (fun r : Entity α => r.id == some i && r.deleted == d) := by
        rw [hF]
        exact List.mem_cons_self _ _
      have h2 : r2 ∈ s.rows.filter (fun r : Entity α => r.id == some i && r.deleted == d) := by
        rw [hF]
        exact List.mem_cons_of_mem _ (List.mem_cons_self _ _)
      rw [hF] at hpf
      have hne : r1.id ≠ r2.id :=
        (List.pairwise_cons.mp hpf).1 r2 (List.mem_cons_self _ _)
      exact hne (((hmemf r1).mp h1).2.1.trans (((hmemf r2).mp h2).2.1).symm)

/-- Witness for C4 on a concrete session with distinct primary keys: `find`
returns the matching live row. -/
theorem c4_witness : ModelBase.find sessW 1 false = .ok entLiveW :=
  ((c4_find_spec sessW 1 false (by decide)).1 entLiveW).mpr ⟨by simp [sessW], rfl, rfl⟩

/-- Claim C5: `find_by_str` parses the numeric suffix after the last `'-'`
of the supplied string with `int()` and delegates to `find` with that integer
and the same deletion filter; `"img-7"` delegates to `find 7` and
`"img-prop-3"` to `find 3`; a suffix that is not a valid integer fails (with
Python's `ValueError`). -/
theorem c5_find_by_str_delegates {α : Type} (s : Session α) (d : Bool) :
    (∀ (str_id : List Char) (n : Int),
        pyInt (rpartitionSuffix '-' str_id) = some n →
          ModelBase.find_by_str s str_id d = ModelBase.find s n d)
    ∧ (∀ str_id : List Char,
        pyInt (rpartitionSuffix '-' str_id) = none →
          ModelBase.find_by_str s str_id d = .error .valueError)
    ∧ ModelBase.find_by_str s "img-7".toList d = ModelBase.find s 7 d
    ∧ ModelBase.find_by_str s "img-prop-3".toList d = ModelBase.find s 3 d := by
  have hdeleg : ∀ (str_id : List Char) (n : Int),
      pyInt (rpartitionSuffix '-' str_id) = some n →
        ModelBase.find_by_str s str_id d = ModelBase.find s n d := by
    intro str_id n h
    unfold ModelBase.find_by_str
    rw [h]
  refine ⟨hdeleg, ?_, ?_, ?_⟩
  · intro str_id h
    unfold ModelBase.find_by_str
    rw [h]
  · exact hdeleg "img-7".toList 7 (by decide)
  · exact hdeleg "img-prop-3".toList 3 (by decide)

/-- Witness for C5 on a concrete session: the external identifier
`"img-7"` is resolved exactly like `find(7)`. -/
theorem c5_witness :
    ModelBase.find_by_str sessW "img-7".toList false = ModelBase.find sessW 7 false :=
  (c5_find_by_str_delegates sessW false).1 "img-7".toList 7 (by decide)

theorem pyInt_rpartition_str_id {α : Type} (pfx : List Char) (e : Entity α)
    (n : Int) (hid : e.id = some n) (hn : 0 ≤ n) :
    pyInt (rpartitionSuffix '-' (Entity.str_id pfx e)) = some n := by
  have hstr : Entity.str_id pfx e = pfx ++ '-' :: natDigits n.toNat := by
    unfold Entity.str_id
    rw [hid]
    simp only [pyStrOptInt, pyStrInt, if_neg (by omega : ¬ n < 0)]
  rw [hstr, rpartitionSuffix_append pfx (natDigits n.toNat)
    (fun c hc => (isDigitChar_ne_dash (natDigits_all_digits n.toNat c hc)).1)]
  rw [pyInt_natDigits n.toNat]
  congr 1
  exact Int.toNat_of_nonneg hn

/-- Claim C6: for an entity with an assigned nonnegative id the derived
`str_id` is `"<prefix>-<id>"` — with `Image.__prefix__ = 'img'` and
`ImageProperty.__prefix__ = 'img-prop'` giving the wire formats `"img-<id>"`
and `"img-prop-<id>"` — and parsing the numeric suffix after the last `'-'`
recovers the id, so `find_by_str(e.str_id)` is equivalent to `find(e.id)`. -/
theorem c6_str_id_roundtrip {α : Type} (pfx : List Char) (e : Entity α)
    (n : Int) (hid : e.id = some n) (hn : 0 ≤ n) :
    Entity.str_id pfx e = pfx ++ '-' :: pyStrInt n
    ∧ imgPfx = "img".toList
    ∧ imgPropPfx = "img-prop".toList
    ∧ pyInt (rpartitionSuffix '-' (Entity.str_id pfx e)) = some n
    ∧ (∀ (s : Session α) (d : Bool),
        ModelBase.find_by_str s (Entity.str_id pfx e) d = ModelBase.find s n d) := by
  refine ⟨?_, rfl, rfl, pyInt_rpartition_str_id pfx e n hid hn, ?_⟩
  · unfold Entity.str_id
    rw [hid]
    rfl
  · intro s d
    unfold ModelBase.find_by_str
    rw [pyInt_rpartition_str_id pfx e n hid hn]

/-- Fixture: a persisted image row with id 42. -/
def img42 : Image := { id := some 42, fields := {} }

/-- Witness for C6: the image wire identifier of id 42 parses back to 42. -/
theorem c6_witness :
    pyInt (rpartitionSuffix '-' (Entity.str_id imgPfx img42)) = some 42 :=
  (c6_str_id_roundtrip imgPfx img42 42 rfl (by decide)).2.2.2.1

theorem setAttr_type_invalid (img : Image) (u : PyVal) (hu : u ∉ Image.typeVals) :
    Image.setAttr img "type".toList u
      = .error (.invalid ("Invalid image type ".toList ++ quoteChar ::
          (pyStrVal u ++ quoteChar :: " for image.".toList))) := by
  unfold Image.setAttr
  rw [if_pos rfl]
  unfold Image.validate_type
  rw [if_neg hu]

theorem setAttr_status_invalid (img : Image) (u : PyVal) (hu : u ∉ Image.statusVals) :
    Image.setAttr img "status".toList u
      = .error (.invalid ("Invalid status ".toList ++ quoteChar ::
          (pyStrVal u ++ quoteChar :: " for image.".toList))) := by
  unfold Image.setAttr
  rw [if_neg (by decide : ¬ ("status".toList = "type".toList)), if_pos rfl]
  unfold Image.validate_status
  rw [if_neg hu]

/-- Claim C7: assigning a `type` outside {machine, kernel, ramdisk, raw} or a
`status` outside {available, pending, disabled} raises `Invalid` with a
message naming the offending value, and produces no updated entity — the
assignment never succeeds, so the entity observably keeps its previous value
for the field. -/
theorem c7_invalid_assignment (img : Image) (v w : PyVal)
    (hv : v ∉ Image.typeVals) (hw : w ∉ Image.statusVals) :
    Image.setAttr img "type".toList v
      = .error (.invalid ("Invalid image type ".toList ++ quoteChar ::
          (pyStrVal v ++ quoteChar :: " for image.".toList)))
    ∧ (∀ img' : Image, Image.setAttr img "type".toList v ≠ .ok img')
    ∧ Image.setAttr img "status".toList w
      = .error (.invalid ("Invalid status ".toList ++ quoteChar ::
          (pyStrVal w ++ quoteChar :: " for image.".toList)))
    ∧ (∀ img' : Image, Image.setAttr img "status".toList w ≠ .ok img')
    ∧ Image.setAttr img "type".toList (.vstr "vhd".toList)
      = .error (.invalid ("Invalid image type ".toList ++ quoteChar ::
          ("vhd".toList ++ quoteChar :: " for image.".toList))) := by
  refine ⟨setAttr_type_invalid img v hv, ?_, setAttr_status_invalid img w hw, ?_,
    setAttr_type_invalid img (.vstr "vhd".toList) (by decide)⟩
  · intro img' h
    rw [setAttr_type_invalid img v hv] at h
    exact Except.noConfusion h
  · intro img' h
    rw [setAttr_status_invalid img w hw] at h
    exact Except.noConfusion h

/-- Witness for C7: assigning `type = "vhd"` to a concrete image raises
`Invalid` naming `vhd`. -/
theorem c7_witness :
    Image.setAttr img42 "type".toList (.vstr "vhd".toList)
      = .error (.invalid ("Invalid image type ".toList ++ quoteChar ::
          (pyStrVal (.vstr "vhd".toList) ++ quoteChar :: " for image.".toList))) :=
  (c7_invalid_assignment img42 (.vstr "vhd".toList) (.vstr "gone".toList)
    (by decide) (by decide)).1

/-- Boolean check that an in-memory `type` attribute is either still unset
(`None`, never assigned) or inside the validated enumeration. -/
def typeOKb (v : PyVal) : Bool := v == PyVal.vnone || decide (v ∈ Image.typeVals)

/-- Boolean check that an in-memory `status` attribute is either still unset
or inside the validated enumeration. -/
def statusOKb (v : PyVal) : Bool := v == PyVal.vnone || decide (v ∈ Image.statusVals)

/-- An image whose validated fields are each unset or in-enumeration. -/
def validImageb (img : Image) : Bool :=
  typeOKb img.fields.type && statusOKb img.fields.status

theorem validate_type_ok {v t : PyVal} (h : Image.validate_type v = .ok t) :
    t = v ∧ v ∈ Image.typeVals := by
  unfold Image.validate_type at h
  split_ifs at h with hm
  injection h with h2
  exact ⟨h2.symm, hm⟩

theorem validate_status_ok {v t : PyVal} (h : Image.validate_status v = .ok t) :
    t = v ∧ v ∈ Image.statusVals := by
  unfold Image.validate_status at h
  split_ifs at h with hm
  injection h with h2
  exact ⟨h2.symm, hm⟩

theorem setAttr_valid (img : Image) (k : List Char) (v : PyVal) (img' : Image)
    (hok : Image.setAttr img k v = .ok img') (hv : validImageb img = true) :
    validImageb img' = true := by
  have hv2 := hv
  simp only [validImageb, Bool.and_eq_true] at hv2
  obtain ⟨hvt, hvs⟩ := hv2
  unfold Image.setAttr at hok
  split_ifs at hok
  · cases hval : Image.validate_type v with
    | ok t =>
      rw [hval] at hok
      injection hok with h2
      subst h2
      obtain ⟨ht, hmem⟩ := validate_type_ok hval
      subst ht
      show (typeOKb t && statusOKb img.fields.status) = true
      have h1 : typeOKb t = true := by simp [typeOKb, hmem]
      rw [h1, hvs]
      rfl
    | error e =>
      rw [hval] at hok
      exact Except.noConfusion hok
  · cases hval : Image.validate_status v with
    | ok t =>
      rw [hval] at hok
      injection hok with h2
      subst h2
      obtain ⟨ht, hmem⟩ := validate_status_ok hval
      subst ht
      show (typeOKb img.fields.type && statusOKb t) = true
      have h1 : statusOKb t = true := by simp [statusOKb, hmem]
      rw [h1, hvt]
      rfl
    | error e =>
      rw [hval] at hok
      exact Except.noConfusion hok
  all_goals injection hok with h2
  all_goals subst h2
  all_goals exact hv

theorem update_valid (kvs : List (List Char × PyVal)) :
    ∀ img : Image, validImageb img = true →
      validImageb (Image.update img kvs).1 = true := by
  induction kvs with
  | nil => intro img hv; exact hv
  | cons kv rest ih =>
    intro img hv
    obtain ⟨k, v⟩ := kv
    cases h : Image.setItem img k v with
    | ok img' =>
      simp only [Image.update, h]
      exact ih img' (setAttr_valid img k v img' h hv)
    | error e =>
      simp only [Image.update, h]
      exact hv

/-- Claim C8: validation of `type` and `status` is invoked on every
assignment path — dict-style item assignment is literally `setattr`, direct
assignment and the bulk `update(values)` helper (which also covers the
declarative constructor `Image(**kwargs)`, i.e. `Image.new`) preserve the
"unset or in-enumeration" invariant even when an assignment in the middle of
an update raises, and a successful assignment of `type` or `status` always
lands inside the enumeration — so an in-memory image never observably holds
an out-of-enumeration `type` or `status`. -/
theorem c8_validation_every_path :
    (∀ (img : Image) (k : List Char) (v : PyVal),
        Image.setItem img k v = Image.setAttr img k v)
    ∧ (∀ (img img' : Image) (k : List Char) (v : PyVal),
        validImageb img = true → Image.setAttr img k v = .ok img' →
          validImageb img' = true)
    ∧ (∀ (img : Image) (kvs : List (List Char × PyVal)),
        validImageb img = true → validImageb (Image.update img kvs).1 = true)
    ∧ (∀ kvs : List (List Char × PyVal), validImageb (Image.new kvs).1 = true)
    ∧ (∀ (img img' : Image) (v : PyVal),
        Image.setAttr img "type".toList v = .ok img' →
          img'.fields.type ∈ Image.typeVals)
    ∧ (∀ (img img' : Image) (v : PyVal),
        Image.setAttr img "status".toList v = .ok img' →
          img'.fields.status ∈ Image.statusVals) := by
  refine ⟨fun img k v => rfl,
    fun img img' k v hv hok => setAttr_valid img k v img' hok hv,
    fun img kvs hv => update_valid kvs img hv,
    fun kvs => update_valid kvs { fields := {} } rfl,
    ?_, ?_⟩
  · intro img img' v hok
    unfold Image.setAttr at hok
    rw [if_pos rfl] at hok
    cases hval : Image.validate_type v with
    | ok t =>
      rw [hval] at hok
      injection hok with h2
      subst h2
      obtain ⟨ht, hmem⟩ := validate_type_ok hval
      simpa [ht] using hmem
    | error e =>
      rw [hval] at hok
      exact Except.noConfusion hok
  · intro img img' v hok
    unfold Image.setAttr at hok
    rw [if_neg (by decide : ¬ ("status".toList = "type".toList)), if_pos rfl] at hok
    cases hval : Image.validate_status v with
    | ok t =>
      rw [hval] at hok
      injection hok with h2
      subst h2
      obtain ⟨ht, hmem⟩ := validate_status_ok hval
      simpa [ht] using hmem
    | error e =>
      rw [hval] at hok
      exact Except.noConfusion hok

/-- Witness for C8: a bulk update of a concrete valid image stays valid. -/
theorem c8_witness :
    validImageb (Image.update img42
      [("status".toList, PyVal.vstr "pending".toList)]).1 = true :=
  c8_validation_every_path.2.2.1 img42
    [("status".toList, PyVal.vstr "pending".toList)] (by decide)

/-- Fixture: a persisted valid image whose `updated_at` was last stamped at
time 5. -/
def img9 : Image :=
  { id := some 1, created_at := some 4, updated_at := some 5,
    fields := { type := .vstr "machine".toList, status := .vstr "available".toList } }

/-- Fixture: a session holding `img9`. -/
def sess9 : Session ImageFields := { rows := [img9], nextId := 2 }

/-- Counterexample to claim C9: `update({"status": "disabled"})` changes
`status` in memory but leaves `updated_at` exactly as it was (`some 5`) — the
`updated_at` column has only an `onupdate` hook, which fires at flush time
inside `save`, not inside `update`; so the call does not make `updated_at`
strictly later than its value before the call. -/
theorem c9_counterexample :
    (Image.update img9 [("status".toList, PyVal.vstr "disabled".toList)]).2 = none
    ∧ (Image.update img9 [("status".toList, PyVal.vstr "disabled".toList)]).1.fields.status
        = PyVal.vstr "disabled".toList
    ∧ img9.updated_at = some 5
    ∧ (Image.update img9 [("status".toList, PyVal.vstr "disabled".toList)]).1.updated_at
        = some 5 := by
  decide

theorem save_persistent_updated_at {α : Type} (now : Nat) (e : Entity α)
    (s : Session α) (i : Int) (hid : e.id = some i) :
    (ModelBase.save now e s).1.updated_at = some now := by
  rw [save_persistent now e s i hid]

theorem setAttr_status_disabled (img : Image) :
    Image.setAttr img "status".toList (PyVal.vstr "disabled".toList)
      = .ok { img with fields :=
          { img.fields with status := PyVal.vstr "disabled".toList } } := by
  unfold Image.setAttr
  rw [if_neg (by decide : ¬ ("status".toList = "type".toList)), if_pos rfl]
  unfold Image.validate_status
  rw [if_pos (by decide)]

/-- Claim C9 (amended): `update({"status": "disabled"})` changes `status` to
"disabled" and leaves `updated_at` untouched; `updated_at` is refreshed to
the current time by the `onupdate` hook when the entity is next flushed
through `save`, at which point it is strictly later than the pre-call value
whenever the clock has advanced. -/
theorem c9_updated_at_amended (img : Image) (s : Session ImageFields)
    (now t : Nat) (i : Int)
    (hu : img.updated_at = some t) (hid : img.id = some i) (hlt : t < now) :
    (Image.update img [("status".toList, PyVal.vstr "disabled".toList)]).2 = none
    ∧ (Image.update img [("status".toList, PyVal.vstr "disabled".toList)]).1.fields.status
        = PyVal.vstr "disabled".toList
    ∧ (Image.update img [("status".toList, PyVal.vstr "disabled".toList)]).1.updated_at
        = some t
    ∧ (ModelBase.save now
        (Image.update img [("status".toList, PyVal.vstr "disabled".toList)]).1 s).1.updated_at
        = some now
    ∧ t < now := by
  have hupd : Image.update img [("status".toList, PyVal.vstr "disabled".toList)]
      = ({ img with fields :=
            { img.fields with status := PyVal.vstr "disabled".toList } }, none) := by
    simp only [Image.update, Image.setItem, setAttr_status_disabled img]
  rw [hupd]
  refine ⟨rfl, rfl, hu, ?_, hlt⟩
  exact save_persistent_updated_at now _ s i hid

/-- Witness for C9 (amended): on a concrete image, update-then-save stamps
`updated_at` with the strictly later flush time. -/
theorem c9_amended_witness :
    (ModelBase.save 7
      (Image.update img9 [("status".toList, PyVal.vstr "disabled".toList)]).1
      sess9).1.updated_at = some 7 :=
  (c9_updated_at_amended img9 sess9 7 5 1 rfl rfl (by omega)).2.2.2.1

theorem conflictb_symm (a b : ImagePropertyFields) :
    ImageProperty.conflictb a b = ImageProperty.conflictb b a := by
  unfold ImageProperty.conflictb
  by_cases h1 : a.image_id = b.image_id
  · by_cases h2 : a.key = b.key
    · rw [h1, h2]
    · rw [beq_eq_false_iff_ne.mpr h2, beq_eq_false_iff_ne.mpr (Ne.symm h2)]
      simp
  · rw [beq_eq_false_iff_ne.mpr h1, beq_eq_false_iff_ne.mpr (Ne.symm h1)]
    simp

/-- No two distinct saved property rows collide on (image_id, key). -/
def pairwiseUnique (rows : List ImageProperty) : Prop :=
  rows.Pairwise (fun a b => ImageProperty.conflictb a.fields b.fields = false)

theorem pairwise_map_replace (rows : List ImageProperty) (p1 : ImageProperty) (i : Int)
    (hpu : rows.Pairwise (fun a b => ImageProperty.conflictb a.fields b.fields = false))
    (hids : rows.Pairwise (fun a b => a.id ≠ b.id))
    (hok : ∀ r ∈ rows, r.id ≠ some i → ImageProperty.conflictb r.fields p1.fields = false) :
    (rows.map (fun r => if r.id == some i then p1 else r)).Pairwise
      (fun a b => ImageProperty.conflictb a.fields b.fields = false) := by
  rw [List.pairwise_map]
  refine List.Pairwise.imp_of_mem ?_ (hpu.and hids)
  intro a b ha hb hab
  obtain ⟨hcf, hne⟩ := hab
  by_cases hai : a.id = some i
  · have hbne : b.id ≠ some i := fun hb2 => hne (hai.trans hb2.symm)
    rw [if_pos (by simp [hai]), if_neg (by simp [hbne])]
    rw [conflictb_symm]
    exact hok b hb hbne
  · rw [if_neg (by simp [hai])]
    by_cases hbi : b.id = some i
    · rw [if_pos (by simp [hbi])]
      exact hok a ha hai
    · rw [if_neg (by simp [hbi])]
      exact hcf

/-- Claim C10: two property rows with the same (image_id, key) can never both
be saved — flushing a new `ImageProperty` that collides with an existing row
on (image_id, key) fails with the store's uniqueness violation, and a
successful flush (INSERT or UPDATE) preserves pairwise uniqueness of the
(image_id, key) pairs among saved rows. -/
theorem c10_property_pair_unique (now : Nat) :
    (∀ (s : Session ImagePropertyFields) (p q : ImageProperty),
        q ∈ s.rows → p.id = none →
        ImageProperty.conflictb q.fields p.fields = true →
          ImageProperty.save now p s = .error .uniqueViolation)
    ∧ (∀ (s : Session ImagePropertyFields) (p : ImageProperty)
        (res : ImageProperty × Session ImagePropertyFields),
          pairwiseUnique s.rows → s.rows.Pairwise (fun a b => a.id ≠ b.id) →
          ImageProperty.save now p s = .ok res → pairwiseUnique res.2.rows) := by
  constructor
  · intro s p q hq hpid hc
    have hcc := hc
    unfold ImageProperty.conflictb at hcc
    simp only [Bool.and_eq_true, beq_iff_eq, Bool.not_eq_true',
      beq_eq_false_iff_ne] at hcc
    obtain ⟨⟨⟨h1, h2⟩, h3⟩, h4⟩ := hcc
    have hnn : ¬ ((p.fields.image_id == PyVal.vnone) = true) := by
      simp only [beq_iff_eq]
      rw [← h1]
      exact h4
    unfold ImageProperty.save
    rw [if_neg hnn, hpid]
    show (if s.rows.any (fun r => ImageProperty.conflictb r.fields p.fields)
        then (.error .uniqueViolation :
          Except Err (ImageProperty × Session ImagePropertyFields))
        else .ok (ModelBase.save now p s)) = .error .uniqueViolation
    rw [if_pos (List.any_eq_true.mpr ⟨q, hq, hc⟩)]
  · intro s p res hpu hids hok
    unfold ImageProperty.save at hok
    by_cases hnn : (p.fields.image_id == PyVal.vnone) = true
    · rw [if_pos hnn] at hok
      exact Except.noConfusion hok
    · rw [if_neg hnn] at hok
      cases hpid : p.id with
      | none =>
        rw [hpid] at hok
        have hok2 : (if s.rows.any (fun r => ImageProperty.conflictb r.fields p.fields)
            then (.error .uniqueViolation :
              Except Err (ImageProperty × Session ImagePropertyFields))
            else .ok (ModelBase.save now p s)) = .ok res := hok
        by_cases hany : (s.rows.any
            (fun r => ImageProperty.conflictb r.fields p.fields)) = true
        · rw [if_pos hany] at hok2
          exact Except.noConfusion hok2
        · rw [if_neg hany] at hok2
          injection hok2 with h2
          subst h2
          rw [save_fresh now p s hpid]
          show pairwiseUnique (s.rows ++
            [{ p with id := some s.nextId, created_at := some (p.created_at.getD now) }])
          unfold pairwiseUnique
          refine List.pairwise_append.mpr ⟨hpu, List.pairwise_singleton _ _, ?_⟩
          intro a ha b hb
          rw [List.mem_singleton.mp hb]
          show ImageProperty.conflictb a.fields p.fields = false
          rw [Bool.not_eq_true] at hany
          have h5 := List.any_eq_false.mp hany a ha
          rwa [Bool.not_eq_true] at h5
      | some i =>
        rw [hpid] at hok
        have hok2 : (if s.rows.any (fun r =>
              !(r.id == some i) && ImageProperty.conflictb r.fields p.fields)
            then (.error .uniqueViolation :
              Except Err (ImageProperty × Session ImagePropertyFields))
            else .ok (ModelBase.save now p s)) = .ok res := hok
        by_cases hany : (s.rows.any (fun r =>
            !(r.id == some i) && ImageProperty.conflictb r.fields p.fields)) = true
        · rw [if_pos hany] at hok2
          exact Except.noConfusion hok2
        · rw [if_neg hany] at hok2
          injection hok2 with h2
          subst h2
          rw [save_persistent now p s i hpid]
          show pairwiseUnique (s.rows.map (fun r =>
            if r.id == some i then { p with updated_at := some now } else r))
          unfold pairwiseUnique
          refine pairwise_map_replace s.rows _ i hpu hids ?_
          intro r hr hrne
          show ImageProperty.conflictb r.fields p.fields = false
          rw [Bool.not_eq_true] at hany
          have h5 := List.any_eq_false.mp hany r hr
          have h6 : (r.id == some i) = false := by
            rw [beq_eq_false_iff_ne]
            exact hrne
          rw [Bool.not_eq_true, h6] at h5
          simpa using h5

/-- Fixture: a saved property row (image 1, key "arch"). -/
def propA : ImageProperty :=
  { id := some 1,
    fields := { image_id := .vint 1, key := .vstr "arch".toList,
                value := .vstr "x86".toList } }

/-- Fixture: a property session holding only `propA`. -/
def sessP : Session ImagePropertyFields := { rows := [propA], nextId := 2 }

/-- Fixture: an unsaved second property duplicating `propA`'s
(image_id, key) pair. -/
def propB : ImageProperty :=
  { fields := { image_id := .vint 1, key := .vstr "arch".toList,
                value := .vstr "arm".toList } }

/-- Witness for C10: flushing the duplicate property fails with the store's
uniqueness violation. -/
theorem c10_witness : ImageProperty.save 3 propB sessP = .error .uniqueViolation :=
  (c10_property_pair_unique 3).1 sessP propB propA (by simp [sessP]) rfl (by decide)
